import Mathlib

/-!
Verification of the TaskFlow Pomodoro timer and task-board logic.

The definitions below are a shallow embedding of the React source: the
PomodoroTimer component (startTimer, stopTimer, the setInterval callback,
the effect reacting to the currentTask prop), and the App component's task
handlers (handleAddTask via TaskForm.handleSubmit, handleUpdateTaskStatus,
handleDeleteTask, handleStartFocus).  The one-second setInterval callback is
modelled by `tick`; the handle stored in the intervalId state is modelled by
an `Option IntervalClosure` carrying what the callback closed over (the
newStatus argument and the currentTask prop at the time startTimer ran).
-/

namespace TaskFlow

/-- Task status columns of the Kanban board: todo, in-progress, complete. -/
inductive TaskStatus
  | todo
  | inProgress
  | complete
deriving DecidableEq

/-- Energy level of a task: High, Medium, Low. -/
inductive EnergyLevel
  | high
  | medium
  | low
deriving DecidableEq

/-- Task segment: project task or daily routine. -/
inductive TaskType
  | project
  | daily
deriving DecidableEq

/-- A task record as stored in Firestore and mirrored into the App's list. -/
structure Task where
  id : Nat
  title : String
  focusTime : Nat
  energyLevel : EnergyLevel
  taskType : TaskType
  status : TaskStatus
  createdAt : Nat
deriving DecidableEq

/-- Session status of the PomodoroTimer: idle, running, or break. -/
inductive TimerStatus
  | idle
  | running
  | onBreak
deriving DecidableEq

/-- POMODORO_TIME = 25 * 60 seconds (default session length). -/
def POMODORO_TIME : Nat := 25 * 60

/-- BREAK_TIME = 5 * 60 seconds (fixed break length). -/
def BREAK_TIME : Nat := 5 * 60

/-- What the setInterval callback closed over when startTimer installed it:
the newStatus argument of that startTimer call and the currentTask prop at
that moment. -/
structure IntervalClosure where
  newStatus : TimerStatus
  capturedTask : Option Task
deriving DecidableEq

/-- The PomodoroTimer component state: remaining seconds, session status and
the intervalId state (none when no repeating tick is active; some holds the
active interval's closure). -/
structure TimerState where
  remaining : Nat
  status : TimerStatus
  intervalId : Option IntervalClosure
deriving DecidableEq

/-- The initial component state: useState(POMODORO_TIME), useState('idle'),
useState(null). -/
def initialTimer : TimerState :=
  { remaining := POMODORO_TIME, status := TimerStatus.idle, intervalId := none }

/-- startTimer(newStatus, taskFocusTime): returns at once if an interval is
already active; otherwise sets remaining to taskFocusTime*60 when newStatus is
running and to BREAK_TIME otherwise, sets the status, and installs the
repeating tick whose callback closes over newStatus and the currentTask prop. -/
def startTimer (newStatus : TimerStatus) (taskFocusTime : Nat)
    (currentTask : Option Task) (s : TimerState) : TimerState :=
  if s.intervalId.isSome then s
  else
    { remaining := if newStatus = TimerStatus.running then taskFocusTime * 60 else BREAK_TIME
      status := newStatus
      intervalId := some { newStatus := newStatus, capturedTask := currentTask } }

/-- One second elapsing.  With no active interval nothing happens.  Otherwise
the interval callback runs on the previous remaining value: when it is at most
1 the callback clears its own interval and nulls intervalId, then either (the
closure's newStatus is running) invokes onTimerComplete with the captured
task, sets status break and remaining BREAK_TIME, or sets status idle and
remaining POMODORO_TIME; when it is greater than 1 remaining decreases by 1.
The second component is the argument passed to onTimerComplete when the
completion callback fired on this tick. -/
def tick : TimerState → TimerState × Option (Option Task)
  | { remaining := r, status := st, intervalId := none } =>
      ({ remaining := r, status := st, intervalId := none }, none)
  | { remaining := r, status := st, intervalId := some iv } =>
      if r ≤ 1 then
        if iv.newStatus = TimerStatus.running then
          ({ remaining := BREAK_TIME, status := TimerStatus.onBreak, intervalId := none },
            some iv.capturedTask)
        else
          ({ remaining := POMODORO_TIME, status := TimerStatus.idle, intervalId := none }, none)
      else
        ({ remaining := r - 1, status := st, intervalId := some iv }, none)

/-- stopTimer: clears the interval when one is active, resets remaining to
POMODORO_TIME and status to idle.  The cleared and the already-clear branch
end in the same state. -/
def stopTimer (_s : TimerState) : TimerState :=
  { remaining := POMODORO_TIME, status := TimerStatus.idle, intervalId := none }

/-- n seconds elapsing (dropping the emitted callbacks). -/
def tickN : Nat → TimerState → TimerState
  | 0, s => s
  | n + 1, s => (tick (tickN n s)).1

/-- Abbreviation for the timer state during a running countdown installed by
startTimer('running', ...): the interval closure captured newStatus running
and the task ct0. -/
def runState (r : Nat) (ct0 : Option Task) : TimerState :=
  { remaining := r, status := TimerStatus.running,
    intervalId := some { newStatus := TimerStatus.running, capturedTask := ct0 } }

/-- The useEffect reacting to (currentTask, status): a selected task while
idle sets remaining to its focusTime*60 without starting the countdown; a
cleared task while not idle force-stops the timer; a cleared task while idle
resets remaining to POMODORO_TIME. -/
def effectSync (currentTask : Option Task) (s : TimerState) : TimerState :=
  match currentTask with
  | some t =>
      if s.status = TimerStatus.idle then { s with remaining := t.focusTime * 60 } else s
  | none =>
      if s.status ≠ TimerStatus.idle then stopTimer s
      else { s with remaining := POMODORO_TIME }

/-- The PomodoroTimer together with its currentTask prop. -/
structure TimerComponent where
  timer : TimerState
  currentTask : Option Task
deriving DecidableEq

/-- Clicking Start Focus: startTimer('running', currentTask ? currentTask.focusTime : 25). -/
def startClick (c : TimerComponent) : TimerComponent :=
  { c with
    timer := effectSync c.currentTask
      (startTimer TimerStatus.running
        (match c.currentTask with | some t => t.focusTime | none => 25)
        c.currentTask c.timer) }

/-- Clicking Take a Break: startTimer('break', BREAK_TIME / 60). -/
def breakClick (c : TimerComponent) : TimerComponent :=
  { c with
    timer := effectSync c.currentTask
      (startTimer TimerStatus.onBreak (BREAK_TIME / 60) c.currentTask c.timer) }

/-- Clicking Stop. -/
def stopClick (c : TimerComponent) : TimerComponent :=
  { c with timer := effectSync c.currentTask (stopTimer c.timer) }

/-- One second elapsing at component level; the second component is the
argument of the completion callback when it fired on this tick. -/
def tickStep (c : TimerComponent) : TimerComponent × Option (Option Task) :=
  ({ c with timer := effectSync c.currentTask (tick c.timer).1 }, (tick c.timer).2)

/-- The currentTask prop changing (the App focusing a task, or clearing the
focus on completion or deletion), followed by the reacting effect. -/
def focusChange (t : Option Task) (c : TimerComponent) : TimerComponent :=
  { timer := effectSync t c.timer, currentTask := t }

/-- n seconds elapsing at component level. -/
def tickStepN : Nat → TimerComponent → TimerComponent
  | 0, c => c
  | n + 1, c => (tickStep (tickStepN n c)).1

/-- Tasks handed to the timer have positive focus time: the form only offers
15, 30, 45, 60, 90 or 120 minutes. -/
def focusTimeOk : Option Task → Bool
  | none => true
  | some t => decide (1 ≤ t.focusTime)

/-- UI-reachable states of the timer component.  The Start Focus button is
rendered only when the status is neither running nor break (hence idle) and
is disabled without a selected task; Take a Break is rendered only while
running; Stop only while running or break; the clock ticks at any time; the
App may change the focused task, always to tasks with positive focus time. -/
inductive TimerReach : TimerComponent → Prop
  | init : TimerReach { timer := initialTimer, currentTask := none }
  | start {c : TimerComponent} : TimerReach c → c.timer.status = TimerStatus.idle →
      c.currentTask.isSome = true → TimerReach (startClick c)
  | tbreak {c : TimerComponent} : TimerReach c → c.timer.status = TimerStatus.running →
      TimerReach (breakClick c)
  | stop {c : TimerComponent} : TimerReach c →
      (c.timer.status = TimerStatus.running ∨ c.timer.status = TimerStatus.onBreak) →
      TimerReach (stopClick c)
  | tick {c : TimerComponent} : TimerReach c → TimerReach (tickStep c).1
  | focus {c : TimerComponent} {t : Option Task} : TimerReach c → focusTimeOk t = true →
      TimerReach (focusChange t c)

/-- Inductive invariant of reachable timer components: remaining is positive,
an interval is active exactly while running, every active interval was
installed by a startTimer('running', ...) call, the selected task has positive
focus time, and a task is selected whenever the status is running. -/
def TimerInv (c : TimerComponent) : Prop :=
  1 ≤ c.timer.remaining ∧
  (c.timer.intervalId.isSome = true ↔ c.timer.status = TimerStatus.running) ∧
  (∀ iv, c.timer.intervalId = some iv → iv.newStatus = TimerStatus.running) ∧
  focusTimeOk c.currentTask = true ∧
  (c.timer.status = TimerStatus.running → c.currentTask.isSome = true)

/-- Starting with no active interval installs the interval and sets the
fields as written in startTimer. -/
lemma startTimer_of_none {s : TimerState} (h : s.intervalId = none)
    (ns : TimerStatus) (d : Nat) (ct : Option Task) :
    startTimer ns d ct s =
      { remaining := if ns = TimerStatus.running then d * 60 else BREAK_TIME
        status := ns
        intervalId := some { newStatus := ns, capturedTask := ct } } := by
  simp [startTimer, h]

/-- Starting while an interval is active changes nothing. -/
lemma startTimer_of_some {s : TimerState} (h : s.intervalId.isSome = true)
    (ns : TimerStatus) (d : Nat) (ct : Option Task) :
    startTimer ns d ct s = s := by
  simp [startTimer, h]

/-- A tick with no active interval changes nothing and fires no callback. -/
lemma tick_of_none {s : TimerState} (h : s.intervalId = none) : tick s = (s, none) := by
  obtain ⟨r, st, iv⟩ := s
  subst h
  rfl

/-- Any number of ticks with no active interval changes nothing. -/
lemma tickN_of_none {s : TimerState} (h : s.intervalId = none) (n : Nat) :
    tickN n s = s := by
  induction n with
  | zero => rfl
  | succ n ih =>
      show (tick (tickN n s)).1 = s
      rw [ih, tick_of_none h]

/-- Starting a running countdown with no active interval yields runState. -/
lemma startTimer_running_of_none {s : TimerState} (h : s.intervalId = none)
    (d : Nat) (ct : Option Task) :
    startTimer TimerStatus.running d ct s = runState (d * 60) ct := by
  simp [startTimer, h, runState]

/-- During a running countdown, each of the first r - 1 ticks decreases
remaining by exactly 1 and leaves status and interval untouched. -/
lemma tickN_running (ct : Option Task) (r : Nat) :
    ∀ k, k < r → tickN k (runState r ct) = runState (r - k) ct := by
  intro k
  induction k with
  | zero => intro _; rfl
  | succ n ih =>
      intro hlt
      have hn : n < r := Nat.lt_of_succ_lt hlt
      show (tick (tickN n _)).1 = _
      rw [ih hn]
      have h2 : ¬ (r - n ≤ 1) := by omega
      simp only [runState, tick, if_neg h2]
      congr 1

/-- The tick on which a running countdown reaches its last second: the
interval clears itself, the completion callback fires with the captured task,
status becomes break and remaining becomes BREAK_TIME. -/
lemma tick_running_last (ct : Option Task) :
    tick (runState 1 ct)
      = ({ remaining := BREAK_TIME, status := TimerStatus.onBreak, intervalId := none },
          some ct) := by
  rfl

/-- The reacting effect preserves the timer invariant. -/
lemma timerInv_effectSync {s : TimerState} {ct : Option Task}
    (h : TimerInv { timer := s, currentTask := ct }) :
    TimerInv { timer := effectSync ct s, currentTask := ct } := by
  obtain ⟨r, st, iv⟩ := s
  obtain ⟨h1, h2, h3, h4, h5⟩ := h
  simp only at h1 h2 h3 h5
  cases ct with
  | some t =>
      have hft : 1 ≤ t.focusTime := by
        simpa [focusTimeOk] using h4
      by_cases hst : st = TimerStatus.idle
      · subst hst
        have heq : effectSync (some t) ⟨r, TimerStatus.idle, iv⟩
            = ⟨t.focusTime * 60, TimerStatus.idle, iv⟩ := by
          simp [effectSync]
        rw [heq]
        exact ⟨by simp; omega, h2, h3, h4, h5⟩
      · have heq : effectSync (some t) ⟨r, st, iv⟩ = ⟨r, st, iv⟩ := by
          simp [effectSync, hst]
        rw [heq]
        exact ⟨h1, h2, h3, h4, h5⟩
  | none =>
      by_cases hst : st = TimerStatus.idle
      · subst hst
        have heq : effectSync none ⟨r, TimerStatus.idle, iv⟩
            = ⟨POMODORO_TIME, TimerStatus.idle, iv⟩ := by
          simp [effectSync]
        rw [heq]
        exact ⟨by simp [POMODORO_TIME], h2, h3, h4, h5⟩
      · have heq : effectSync none ⟨r, st, iv⟩
            = ⟨POMODORO_TIME, TimerStatus.idle, none⟩ := by
          simp [effectSync, hst, stopTimer]
        rw [heq]
        refine ⟨by simp [POMODORO_TIME], by simp, by simp, h4, by simp⟩

/-- A raw tick preserves the timer invariant. -/
lemma timerInv_tick {s : TimerState} {ct : Option Task}
    (h : TimerInv { timer := s, currentTask := ct }) :
    TimerInv { timer := (tick s).1, currentTask := ct } := by
  obtain ⟨r, st, iv⟩ := s
  obtain ⟨h1, h2, h3, h4, h5⟩ := h
  simp only at h1 h2 h3 h5
  cases iv with
  | none => exact ⟨h1, h2, h3, h4, h5⟩
  | some iv0 =>
      have hst : st = TimerStatus.running := h2.mp (by simp)
      have hns : iv0.newStatus = TimerStatus.running := h3 iv0 rfl
      subst hst
      by_cases hr : r ≤ 1
      · have heq : (tick ⟨r, TimerStatus.running, some iv0⟩).1
            = ⟨BREAK_TIME, TimerStatus.onBreak, none⟩ := by
          simp [tick, hr, hns]
        rw [heq]
        refine ⟨by simp [BREAK_TIME], by simp, by simp, h4, by simp⟩
      · have heq : (tick ⟨r, TimerStatus.running, some iv0⟩).1
            = ⟨r - 1, TimerStatus.running, some iv0⟩ := by
          simp [tick, hr]
        rw [heq]
        refine ⟨by simp; omega, by simp, ?_, h4, fun _ => h5 rfl⟩
        intro iv hiv
        injection hiv with hiv
        rw [← hiv]
        exact hns

/-- Every UI-reachable timer component satisfies the invariant. -/
lemma timerInv_of_reach {c : TimerComponent} (h : TimerReach c) : TimerInv c := by
  induction h with
  | init =>
      refine ⟨?_, ?_, ?_, ?_, ?_⟩ <;>
        simp [initialTimer, focusTimeOk, POMODORO_TIME]
  | start hc hidle hsome ih =>
      rename_i c
      obtain ⟨h1, h2, h3, h4, h5⟩ := ih
      have hiv : c.timer.intervalId = none := by
        cases hivs : c.timer.intervalId with
        | none => rfl
        | some iv0 =>
            have : c.timer.status = TimerStatus.running := h2.mp (by simp [hivs])
            rw [this] at hidle
            exact absurd hidle (by simp)
      obtain ⟨t, hct⟩ := Option.isSome_iff_exists.mp hsome
      have hft : 1 ≤ t.focusTime := by
        rw [hct] at h4
        simpa [focusTimeOk] using h4
      apply timerInv_effectSync
      show TimerInv { timer := startTimer _ _ _ _, currentTask := c.currentTask }
      rw [hct, startTimer_of_none hiv]
      refine ⟨?_, ?_, ?_, ?_, ?_⟩ <;> simp [hct, focusTimeOk, hft] <;> omega
  | tbreak hc hr ih =>
      rename_i c
      obtain ⟨h1, h2, h3, h4, h5⟩ := ih
      have hiv : c.timer.intervalId.isSome = true := h2.mpr hr
      have heq : breakClick c = c := by
        obtain ⟨t, hct⟩ := Option.isSome_iff_exists.mp (h5 hr)
        have hnoop := startTimer_of_some hiv TimerStatus.onBreak (BREAK_TIME / 60) c.currentTask
        obtain ⟨⟨r, st, iv⟩, ct⟩ := c
        simp only at hr hct
        subst hr hct
        simp [breakClick, effectSync] at hnoop ⊢
        simp [hnoop, effectSync]
      rw [heq]
      exact ⟨h1, h2, h3, h4, h5⟩
  | stop hc hs ih =>
      rename_i c
      obtain ⟨h1, h2, h3, h4, h5⟩ := ih
      apply timerInv_effectSync
      show TimerInv { timer := stopTimer _, currentTask := c.currentTask }
      refine ⟨?_, ?_, ?_, h4, ?_⟩ <;> simp [stopTimer, POMODORO_TIME]
  | tick hc ih =>
      rename_i c
      exact timerInv_effectSync (timerInv_tick ih)
  | focus hc hok ih =>
      rename_i c t
      obtain ⟨h1, h2, h3, h4, h5⟩ := ih
      obtain ⟨⟨r, st, iv⟩, ct⟩ := c
      simp only at h1 h2 h3 h5
      cases t with
      | some u =>
          have hft : 1 ≤ u.focusTime := by simpa [focusTimeOk] using hok
          by_cases hst : st = TimerStatus.idle
          · subst hst
            refine ⟨?_, ?_, ?_, hok, ?_⟩ <;>
              simp_all [focusChange, effectSync] <;> omega
          · refine ⟨?_, ?_, ?_, hok, ?_⟩ <;>
              simp_all [focusChange, effectSync]
      | none =>
          by_cases hst : st = TimerStatus.idle
          · subst hst
            have hivn : iv = none := by
              cases hivs : iv with
              | none => rfl
              | some iv0 =>
                  have := h2.mp (by simp [hivs])
                  exact absurd this (by simp)
            subst hivn
            refine ⟨?_, ?_, ?_, hok, ?_⟩ <;>
              simp_all [focusChange, effectSync, POMODORO_TIME]
          · refine ⟨?_, ?_, ?_, hok, ?_⟩ <;>
              simp_all [focusChange, effectSync, stopTimer, POMODORO_TIME]

/-- The App component's task-board state: the cached task list mirrored from
Firestore and the currentFocusTask reference. -/
structure AppState where
  tasks : List Task
  currentFocusTask : Option Task
deriving DecidableEq

/-- The check currentFocusTask?.id === taskId. -/
def focusedIdIs (st : AppState) (taskId : Nat) : Bool :=
  match st.currentFocusTask with
  | some f => f.id == taskId
  | none => false

/-- handleUpdateTaskStatus: writes the new status to the task's document (the
snapshot mirrors it into the cached list); when the task being marked complete
is the focused task, the focus reference is cleared. -/
def handleUpdateTaskStatus (taskId : Nat) (newStatus : TaskStatus) (st : AppState) : AppState :=
  { tasks := st.tasks.map fun t => if t.id = taskId then { t with status := newStatus } else t
    currentFocusTask :=
      if newStatus = TaskStatus.complete ∧ focusedIdIs st taskId = true then none
      else st.currentFocusTask }

/-- handleDeleteTask: deletes the document (the snapshot drops it from the
cached list); when the deleted task was focused, the focus reference is
cleared. -/
def handleDeleteTask (taskId : Nat) (st : AppState) : AppState :=
  { tasks := st.tasks.filter fun t => t.id != taskId
    currentFocusTask := if focusedIdIs st taskId = true then none else st.currentFocusTask }

/-- handleStartFocus: sets the task as the focused task; when its status is
todo, additionally advances it to in-progress. -/
def handleStartFocus (task : Task) (st : AppState) : AppState :=
  let st1 : AppState := { st with currentFocusTask := some task }
  if task.status = TaskStatus.todo then
    handleUpdateTaskStatus task.id TaskStatus.inProgress st1
  else st1

/-- The payload TaskForm hands to onAddTask. -/
structure TaskPayload where
  title : String
  focusTime : Nat
  energyLevel : EnergyLevel
  taskType : TaskType
deriving DecidableEq

/-- Model of the JavaScript title.trim(): whitespace characters dropped from
both ends of the string. -/
def jsTrim (s : String) : String :=
  { data := ((s.data.dropWhile Char.isWhitespace).reverse.dropWhile
      Char.isWhitespace).reverse }

/-- TaskForm.handleSubmit: a title that trims to empty is rejected before
onAddTask is called; otherwise the trimmed title and the selected fields are
submitted. -/
def handleSubmit (title : String) (focusTime : Nat) (energyLevel : EnergyLevel)
    (taskType : TaskType) : Option TaskPayload :=
  if jsTrim title = "" then none
  else
    some { title := jsTrim title, focusTime := focusTime,
           energyLevel := energyLevel, taskType := taskType }

/-- handleAddTask builds the Firestore document from the payload: status todo,
store-assigned id and creation time. -/
def mkTask (freshId : Nat) (now : Nat) (p : TaskPayload) : Task :=
  { id := freshId, title := p.title, focusTime := p.focusTime,
    energyLevel := p.energyLevel, taskType := p.taskType,
    status := TaskStatus.todo, createdAt := now }

/-- One form submission round trip: when handleSubmit rejects, no store call
is made and the list is unchanged; when it accepts, handleAddTask creates the
document (fresh id, server time) and the snapshot delivers it into the cached
list.  The Bool records whether a store call was made. -/
def formSubmitStep (title : String) (focusTime : Nat) (energyLevel : EnergyLevel)
    (taskType : TaskType) (freshId : Nat) (now : Nat) (st : AppState) : AppState × Bool :=
  match handleSubmit title focusTime energyLevel taskType with
  | none => (st, false)
  | some p => ({ st with tasks := st.tasks ++ [mkTask freshId now p] }, true)

/-- The Focus button of a task card is rendered only when the task's status is
not complete. -/
def focusButtonShown (t : Task) : Bool :=
  t.status != TaskStatus.complete

/-- UI-reachable App states: submissions create fresh-id todo documents,
status updates and deletions may target any id, and start-focus is dispatched
only from a task card on the board whose Focus button is rendered. -/
inductive AppReach : AppState → Prop
  | init : AppReach { tasks := [], currentFocusTask := none }
  | add {st : AppState} (title : String) (focusTime : Nat) (energyLevel : EnergyLevel)
      (taskType : TaskType) (freshId : Nat) (now : Nat) : AppReach st →
      (∀ t ∈ st.tasks, t.id ≠ freshId) →
      AppReach (formSubmitStep title focusTime energyLevel taskType freshId now st).1
  | update {st : AppState} (taskId : Nat) (newStatus : TaskStatus) : AppReach st →
      AppReach (handleUpdateTaskStatus taskId newStatus st)
  | del {st : AppState} (taskId : Nat) : AppReach st → AppReach (handleDeleteTask taskId st)
  | focus {st : AppState} (task : Task) : AppReach st → task ∈ st.tasks →
      focusButtonShown task = true → AppReach (handleStartFocus task st)

/-- Inductive invariant of reachable App states: document ids are distinct and
the focused task is never complete on the board. -/
def AppInv (st : AppState) : Prop :=
  (st.tasks.map Task.id).Nodup ∧
  ∀ f, st.currentFocusTask = some f →
    ∀ t ∈ st.tasks, t.id = f.id → t.status ≠ TaskStatus.complete

/-- The status-update map leaves the id column unchanged. -/
lemma map_update_id (l : List Task) (taskId : Nat) (ns : TaskStatus) :
    ((l.map fun t => if t.id = taskId then { t with status := ns } else t).map Task.id)
      = l.map Task.id := by
  induction l with
  | nil => rfl
  | cons a l ih =>
      by_cases ha : a.id = taskId <;> simp [ha, ih]

/-- Every UI-reachable App state satisfies the board invariant. -/
lemma appInv_of_reach {st : AppState} (h : AppReach st) : AppInv st := by
  induction h with
  | init => exact ⟨List.nodup_nil, by simp⟩
  | add title focusTime energyLevel taskType freshId now ha hfresh ih =>
      rename_i st
      obtain ⟨hnd, hfoc⟩ := ih
      cases hsub : handleSubmit title focusTime energyLevel taskType with
      | none =>
          simp only [formSubmitStep, hsub]
          exact ⟨hnd, hfoc⟩
      | some p =>
          simp only [formSubmitStep, hsub]
          constructor
          · show ((st.tasks ++ [mkTask freshId now p]).map Task.id).Nodup
            rw [List.map_append, List.nodup_append]
            refine ⟨hnd, by simp, ?_⟩
            intro a ha' hb
            simp only [List.map_cons, List.map_nil, List.mem_singleton, mkTask] at hb
            obtain ⟨t, ht, rfl⟩ := List.mem_map.mp ha'
            exact hfresh t ht hb
          · intro f hf t ht hid
            show t.status ≠ TaskStatus.complete
            have hf' : st.currentFocusTask = some f := hf
            rcases List.mem_append.mp ht with hold | hnew
            · exact hfoc f hf' t hold hid
            · rw [List.mem_singleton.mp hnew]
              simp [mkTask]
  | update taskId newStatus ha ih =>
      rename_i st
      obtain ⟨hnd, hfoc⟩ := ih
      constructor
      · show ((st.tasks.map fun t =>
            if t.id = taskId then { t with status := newStatus } else t).map Task.id).Nodup
        rw [map_update_id]
        exact hnd
      · intro f hf t' ht' hid
        have hf0 : (if newStatus = TaskStatus.complete ∧ focusedIdIs st taskId = true
            then none else st.currentFocusTask) = some f := hf
        have ht0 : t' ∈ st.tasks.map fun t =>
            if t.id = taskId then { t with status := newStatus } else t := ht'
        by_cases hcl : newStatus = TaskStatus.complete ∧ focusedIdIs st taskId = true
        · rw [if_pos hcl] at hf0
          exact absurd hf0 (by simp)
        · rw [if_neg hcl] at hf0
          obtain ⟨t, ht, rfl⟩ := List.mem_map.mp ht0
          by_cases hsame : t.id = taskId
          · rw [if_pos hsame] at hid ⊢
            intro hns
            apply hcl
            have hns' : newStatus = TaskStatus.complete := hns
            have hid' : t.id = f.id := hid
            refine ⟨hns', ?_⟩
            simp only [focusedIdIs, hf0]
            have hfid : f.id = taskId := by omega
            simp [hfid]
          · rw [if_neg hsame] at hid ⊢
            exact hfoc f hf0 t ht hid
  | del taskId ha ih =>
      rename_i st
      obtain ⟨hnd, hfoc⟩ := ih
      constructor
      · show ((st.tasks.filter fun t => t.id != taskId).map Task.id).Nodup
        exact List.Nodup.sublist (List.Sublist.map Task.id (List.filter_sublist st.tasks)) hnd
      · intro f hf t ht hid
        have hf0 : (if focusedIdIs st taskId = true then none
            else st.currentFocusTask) = some f := hf
        by_cases hcl : focusedIdIs st taskId = true
        · rw [if_pos hcl] at hf0
          exact absurd hf0 (by simp)
        · rw [if_neg hcl] at hf0
          exact hfoc f hf0 t (List.mem_of_mem_filter ht) hid
  | focus task ha hmem hbtn ih =>
      rename_i st
      obtain ⟨hnd, hfoc⟩ := ih
      have hstat : task.status ≠ TaskStatus.complete := by
        simpa [focusButtonShown] using hbtn
      by_cases htodo : task.status = TaskStatus.todo
      · have hred : handleStartFocus task st
            = handleUpdateTaskStatus task.id TaskStatus.inProgress
                { st with currentFocusTask := some task } := by
          simp [handleStartFocus, htodo]
        rw [hred]
        constructor
        · show ((st.tasks.map fun t =>
              if t.id = task.id then { t with status := TaskStatus.inProgress } else t).map
                Task.id).Nodup
          rw [map_update_id]
          exact hnd
        · intro f hf t' ht' hid
          have hf0 : (if TaskStatus.inProgress = TaskStatus.complete ∧
              focusedIdIs { st with currentFocusTask := some task } task.id = true
              then none else some task) = some f := hf
          rw [if_neg (by simp)] at hf0
          have hf1 : f = task := (Option.some_inj.mp hf0).symm
          subst hf1
          have ht0 : t' ∈ st.tasks.map fun t =>
              if t.id = f.id then { t with status := TaskStatus.inProgress } else t := ht'
          obtain ⟨t, ht, rfl⟩ := List.mem_map.mp ht0
          by_cases hsame : t.id = f.id
          · rw [if_pos hsame]
            simp
          · rw [if_neg hsame] at hid
            exact absurd hid hsame
      · have hred : handleStartFocus task st = { st with currentFocusTask := some task } := by
          simp [handleStartFocus, htodo]
        rw [hred]
        refine ⟨hnd, ?_⟩
        intro f hf t ht hid
        have hf1 : f = task := (Option.some_inj.mp hf).symm
        subst hf1
        have heq : t = f := List.inj_on_of_nodup_map hnd ht hmem hid
        rw [heq]
        exact hstat

/-- During a running countdown with a selected task, each of the first r - 1
component ticks decreases remaining by exactly 1; the reacting effect does not
interfere while the status is running. -/
lemma tickStepN_running (t : Task) (ct0 : Option Task) (r : Nat) :
    ∀ k, k < r →
      tickStepN k { timer := runState r ct0, currentTask := some t }
        = { timer := runState (r - k) ct0, currentTask := some t } := by
  intro k
  induction k with
  | zero => intro _; rfl
  | succ n ih =>
      intro hlt
      have hn : n < r := Nat.lt_of_succ_lt hlt
      show (tickStep (tickStepN n _)).1 = _
      rw [ih hn]
      have h2 : ¬ (r - n ≤ 1) := by omega
      simp only [tickStep, runState, tick, if_neg h2, effectSync]
      norm_num
      congr 1

/-- A full running countdown of r seconds ends, after exactly r component
ticks, in the break state with no active interval. -/
lemma tickStepN_to_break (t : Task) (ct0 : Option Task) (r : Nat) (hr : 1 ≤ r) :
    tickStepN r { timer := runState r ct0, currentTask := some t }
      = { timer := { remaining := BREAK_TIME, status := TimerStatus.onBreak,
                     intervalId := none },
          currentTask := some t } := by
  obtain ⟨r', rfl⟩ : ∃ r', r = r' + 1 := ⟨r - 1, by omega⟩
  show (tickStep (tickStepN r' _)).1 = _
  rw [tickStepN_running t ct0 (r' + 1) r' (by omega)]
  have h1 : r' + 1 - r' = 1 := by omega
  rw [h1]
  rfl

/-- Reachability is preserved by any number of component ticks. -/
lemma timerReach_tickStepN {c : TimerComponent} (h : TimerReach c) (n : Nat) :
    TimerReach (tickStepN n c) := by
  induction n with
  | zero => exact h
  | succ n ih => exact TimerReach.tick ih

/-- A concrete project task used in the concrete runs below. -/
def cTask : Task :=
  { id := 1, title := "Write report", focusTime := 15,
    energyLevel := EnergyLevel.medium, taskType := TaskType.project,
    status := TaskStatus.inProgress, createdAt := 0 }

/-- A second concrete task, used when the focus is switched mid-countdown. -/
def cTaskB : Task :=
  { id := 2, title := "Plan sprint", focusTime := 30,
    energyLevel := EnergyLevel.high, taskType := TaskType.project,
    status := TaskStatus.inProgress, createdAt := 1 }

/-- The timer component as created on UI load. -/
def c0 : TimerComponent := { timer := initialTimer, currentTask := none }

/-- The component after focusing cTask and clicking Start Focus: a running
15-minute countdown. -/
def wRun : TimerComponent := startClick (focusChange (some cTask) c0)

/-- The component after that countdown has fully elapsed (900 ticks). -/
def wBreak : TimerComponent := tickStepN 900 wRun

lemma timerReach_wRun : TimerReach wRun :=
  TimerReach.start (TimerReach.focus TimerReach.init (by decide)) (by decide) (by decide)

lemma wRun_eq :
    wRun = { timer := runState 900 (some cTask), currentTask := some cTask } := by
  decide

lemma wBreak_eq :
    wBreak = { timer := { remaining := BREAK_TIME, status := TimerStatus.onBreak,
                          intervalId := none },
               currentTask := some cTask } := by
  show tickStepN 900 wRun = _
  rw [wRun_eq]
  exact tickStepN_to_break cTask (some cTask) 900 (by omega)

/-- C10: in every reachable timer state the remaining-seconds value is at
least 1 and never 0; on the tick taken when remaining equals 1 the automatic
transition replaces it directly with 300 (running closure, to break) or 1500
(break closure, to idle), so 0 is never stored. -/
theorem remaining_never_zero (c : TimerComponent) (h : TimerReach c) :
    1 ≤ c.timer.remaining ∧
    ∀ iv, c.timer.intervalId = some iv → c.timer.remaining = 1 →
      ((iv.newStatus = TimerStatus.running →
          (tick c.timer).1.remaining = 300 ∧
          (tick c.timer).1.status = TimerStatus.onBreak) ∧
        (iv.newStatus ≠ TimerStatus.running →
          (tick c.timer).1.remaining = 1500 ∧
          (tick c.timer).1.status = TimerStatus.idle)) := by
  obtain ⟨h1, _h2, _h3, _h4, _h5⟩ := timerInv_of_reach h
  refine ⟨h1, ?_⟩
  obtain ⟨⟨r, st, iv0⟩, ct⟩ := c
  intro iv hiv hr1
  simp only at hiv hr1
  subst hiv hr1
  constructor
  · intro hrun
    simp [tick, hrun, BREAK_TIME]
  · intro hnrun
    simp [tick, hnrun, POMODORO_TIME]

/-- C10 witness: the theorem applied to the concrete reachable running state. -/
theorem remaining_never_zero_witness :
    1 ≤ wRun.timer.remaining ∧
    ∀ iv, wRun.timer.intervalId = some iv → wRun.timer.remaining = 1 →
      ((iv.newStatus = TimerStatus.running →
          (tick wRun.timer).1.remaining = 300 ∧
          (tick wRun.timer).1.status = TimerStatus.onBreak) ∧
        (iv.newStatus ≠ TimerStatus.running →
          (tick wRun.timer).1.remaining = 1500 ∧
          (tick wRun.timer).1.status = TimerStatus.idle)) :=
  remaining_never_zero wRun timerReach_wRun

/-- C5: starting focus from the idle state (no active interval) sets status
running and remaining to focusTime*60, and each of the following ticks during
the countdown decreases remaining by exactly 1 while the status stays
running. -/
theorem start_focus_countdown (s : TimerState) (task : Task)
    (hidle : s.status = TimerStatus.idle) (hiv : s.intervalId = none) :
    (startTimer TimerStatus.running task.focusTime (some task) s).status
        = TimerStatus.running ∧
    (startTimer TimerStatus.running task.focusTime (some task) s).remaining
        = task.focusTime * 60 ∧
    ∀ k, k < task.focusTime * 60 →
      (tickN k (startTimer TimerStatus.running task.focusTime (some task) s)).remaining
          = task.focusTime * 60 - k ∧
      (tickN k (startTimer TimerStatus.running task.focusTime (some task) s)).status
          = TimerStatus.running := by
  rw [startTimer_running_of_none hiv]
  refine ⟨rfl, rfl, ?_⟩
  intro k hk
  rw [tickN_running (some task) (task.focusTime * 60) k hk]
  exact ⟨rfl, rfl⟩

/-- C5 witness: the theorem applied to the idle initial state and cTask. -/
theorem start_focus_countdown_witness :
    (startTimer TimerStatus.running cTask.focusTime (some cTask) initialTimer).status
        = TimerStatus.running ∧
    (startTimer TimerStatus.running cTask.focusTime (some cTask) initialTimer).remaining
        = cTask.focusTime * 60 ∧
    ∀ k, k < cTask.focusTime * 60 →
      (tickN k (startTimer TimerStatus.running cTask.focusTime
          (some cTask) initialTimer)).remaining = cTask.focusTime * 60 - k ∧
      (tickN k (startTimer TimerStatus.running cTask.focusTime
          (some cTask) initialTimer)).status = TimerStatus.running :=
  start_focus_countdown initialTimer cTask rfl rfl

/-- C9: switching the focused task from A to B while the countdown runs
neither stops nor adjusts it (the reacting effect leaves a running timer
untouched), and when the countdown completes the completion callback is
invoked with A, the task captured by the interval closure when the countdown
started, not with B. -/
theorem stale_focus_callback (A B : Task) (s : TimerState)
    (hiv : s.intervalId = none) (hft : 1 ≤ A.focusTime) :
    effectSync (some B) (startTimer TimerStatus.running A.focusTime (some A) s)
        = startTimer TimerStatus.running A.focusTime (some A) s ∧
    (tick (tickN (A.focusTime * 60 - 1)
        (startTimer TimerStatus.running A.focusTime (some A) s))).2 = some (some A) ∧
    (tick (tickN (A.focusTime * 60 - 1)
        (startTimer TimerStatus.running A.focusTime (some A) s))).1.status
        = TimerStatus.onBreak := by
  rw [startTimer_running_of_none hiv]
  have hk : A.focusTime * 60 - 1 < A.focusTime * 60 := by omega
  rw [tickN_running (some A) (A.focusTime * 60) _ hk]
  rw [show A.focusTime * 60 - (A.focusTime * 60 - 1) = 1 from by omega]
  rw [tick_running_last]
  refine ⟨?_, rfl, rfl⟩
  simp [effectSync, runState]

/-- C9 witness: the theorem applied to cTask, cTaskB and the initial state. -/
theorem stale_focus_callback_witness :
    effectSync (some cTaskB)
        (startTimer TimerStatus.running cTask.focusTime (some cTask) initialTimer)
        = startTimer TimerStatus.running cTask.focusTime (some cTask) initialTimer ∧
    (tick (tickN (cTask.focusTime * 60 - 1)
        (startTimer TimerStatus.running cTask.focusTime (some cTask) initialTimer))).2
        = some (some cTask) ∧
    (tick (tickN (cTask.focusTime * 60 - 1)
        (startTimer TimerStatus.running cTask.focusTime (some cTask) initialTimer))).1.status
        = TimerStatus.onBreak :=
  stale_focus_callback cTask cTaskB initialTimer rfl (by decide)

/-- C4: stop from a running or break state sets status idle, resets remaining
to the default 1500 seconds and clears the interval; afterwards no tick ever
changes the state or fires a callback, however much time elapses. -/
theorem stop_cancels (s : TimerState)
    (h : s.status = TimerStatus.running ∨ s.status = TimerStatus.onBreak) :
    (stopTimer s).status = TimerStatus.idle ∧
    (stopTimer s).remaining = 1500 ∧
    (stopTimer s).intervalId = none ∧
    ∀ n, tickN n (stopTimer s) = stopTimer s ∧
      (tick (tickN n (stopTimer s))).2 = none := by
  refine ⟨rfl, rfl, rfl, ?_⟩
  intro n
  have hiv : (stopTimer s).intervalId = none := rfl
  refine ⟨tickN_of_none hiv n, ?_⟩
  rw [tickN_of_none hiv n, tick_of_none hiv]

/-- C4 witness: the theorem applied to a concrete running state. -/
theorem stop_cancels_witness :
    (stopTimer (runState 900 (some cTask))).status = TimerStatus.idle ∧
    (stopTimer (runState 900 (some cTask))).remaining = 1500 ∧
    (stopTimer (runState 900 (some cTask))).intervalId = none ∧
    ∀ n, tickN n (stopTimer (runState 900 (some cTask)))
          = stopTimer (runState 900 (some cTask)) ∧
      (tick (tickN n (stopTimer (runState 900 (some cTask))))).2 = none :=
  stop_cancels (runState 900 (some cTask)) (Or.inl rfl)

/-- The state left behind by the automatic running-to-break transition: break
with 300 seconds shown and no active interval. -/
def frozenBreak : TimerState :=
  { remaining := 300, status := TimerStatus.onBreak, intervalId := none }

/-- C1, behaviour of the code at the failing input: a 15-minute focus
session started on cTask fires the completion callback with cTask on its
900th tick, sets status break and remaining 300 — but the interval callback
has cleared its own interval, so every further tick leaves the state
unchanged and fires nothing: the break countdown never counts down. -/
theorem auto_break_frozen :
    tick (tickN (15 * 60 - 1)
        (startTimer TimerStatus.running cTask.focusTime (some cTask) initialTimer))
      = (frozenBreak, some (some cTask)) ∧
    frozenBreak.remaining = 300 ∧ frozenBreak.status = TimerStatus.onBreak ∧
    ∀ n, tickN n frozenBreak = frozenBreak ∧ (tick (tickN n frozenBreak)).2 = none := by
  refine ⟨?_, rfl, rfl, ?_⟩
  · rw [startTimer_running_of_none rfl]
    rw [show cTask.focusTime * 60 = 900 from rfl]
    rw [tickN_running (some cTask) 900 (15 * 60 - 1) (by omega)]
    rw [show (900 - (15 * 60 - 1) : Nat) = 1 from by omega]
    rw [tick_running_last]
    rfl
  · intro n
    have hiv : frozenBreak.intervalId = none := rfl
    refine ⟨tickN_of_none hiv n, ?_⟩
    rw [tickN_of_none hiv n, tick_of_none hiv]

/-- C2, behaviour of the code at the failing input: in every reachable state
with status running, clicking Take a Break changes nothing — startTimer
returns early because an interval is active — so the manual transition to
break (without a completion callback) never happens. -/
theorem take_a_break_noop (c : TimerComponent) (h : TimerReach c)
    (hr : c.timer.status = TimerStatus.running) : breakClick c = c := by
  obtain ⟨_h1, h2, _h3, _h4, h5⟩ := timerInv_of_reach h
  have hiv : c.timer.intervalId.isSome = true := h2.mpr hr
  obtain ⟨t, hct⟩ := Option.isSome_iff_exists.mp (h5 hr)
  have hnoop := startTimer_of_some hiv TimerStatus.onBreak (BREAK_TIME / 60) c.currentTask
  have heff : effectSync c.currentTask c.timer = c.timer := by
    rw [hct]
    simp [effectSync, hr]
  show { c with
      timer := effectSync c.currentTask
        (startTimer TimerStatus.onBreak (BREAK_TIME / 60) c.currentTask c.timer) } = c
  rw [hnoop, heff]

/-- C2 witness: the theorem applied to the concrete reachable running state. -/
theorem take_a_break_noop_witness : breakClick wRun = wRun :=
  take_a_break_noop wRun timerReach_wRun (by decide)

/-- C3 counterexample: wBreak, the reachable state in which a finished focus
countdown has left the timer, has status break while no tick is active —
refuting the claim that exactly one tick is active whenever status is running
or break. -/
theorem break_state_without_tick :
    TimerReach wBreak ∧ wBreak.timer.status = TimerStatus.onBreak ∧
      wBreak.timer.intervalId = none := by
  refine ⟨timerReach_tickStepN timerReach_wRun 900, ?_, ?_⟩
  · rw [wBreak_eq]
  · rw [wBreak_eq]

/-- C3 amended: in every reachable state a tick is active exactly when status
is running — so no tick is active when idle, and none in break states, which
are only ever reached through the automatic transition that cancels the tick
— and invoking start while a tick is active changes nothing. -/
theorem tick_active_iff_running (c : TimerComponent) (h : TimerReach c) :
    (c.timer.intervalId.isSome = true ↔ c.timer.status = TimerStatus.running) ∧
    ∀ ns d t, c.timer.intervalId.isSome = true → startTimer ns d t c.timer = c.timer := by
  obtain ⟨_h1, h2, _h3, _h4, _h5⟩ := timerInv_of_reach h
  exact ⟨h2, fun ns d t hiv => startTimer_of_some hiv ns d t⟩

/-- C3 witness: the amended theorem applied to the concrete running state. -/
theorem tick_active_iff_running_witness :
    (wRun.timer.intervalId.isSome = true ↔ wRun.timer.status = TimerStatus.running) ∧
    ∀ ns d t, wRun.timer.intervalId.isSome = true →
      startTimer ns d t wRun.timer = wRun.timer :=
  tick_active_iff_running wRun timerReach_wRun

/-- A concrete completed task. -/
def doneTask : Task :=
  { id := 3, title := "Ship release", focusTime := 30,
    energyLevel := EnergyLevel.low, taskType := TaskType.daily,
    status := TaskStatus.complete, createdAt := 4 }

/-- A concrete todo task. -/
def todoTask : Task :=
  { id := 4, title := "Draft email", focusTime := 15,
    energyLevel := EnergyLevel.low, taskType := TaskType.project,
    status := TaskStatus.todo, createdAt := 2 }

/-- C6 counterexample: invoking handleStartFocus on a task whose status is
already complete does make it the focused task — the handler is not a no-op
on completed tasks. -/
theorem start_focus_on_complete_focuses :
    (handleStartFocus doneTask
        { tasks := [doneTask], currentFocusTask := none }).currentFocusTask
      = some doneTask := by
  decide

/-- C6 amended: handleStartFocus always sets the task as focused, whatever
its status; when the status is todo it advances the task to in-progress,
otherwise it leaves the list unchanged; completed tasks are protected only by
the UI, which renders the Focus button exactly for tasks that are not
complete. -/
theorem start_focus_behavior (task : Task) (st : AppState) :
    (handleStartFocus task st).currentFocusTask = some task ∧
    (task.status = TaskStatus.todo →
      (handleStartFocus task st).tasks = st.tasks.map fun t =>
        if t.id = task.id then { t with status := TaskStatus.inProgress } else t) ∧
    (task.status ≠ TaskStatus.todo → (handleStartFocus task st).tasks = st.tasks) ∧
    (focusButtonShown task = false ↔ task.status = TaskStatus.complete) := by
  have hbtn : focusButtonShown task = false ↔ task.status = TaskStatus.complete := by
    simp [focusButtonShown]
  by_cases htodo : task.status = TaskStatus.todo
  · have hred : handleStartFocus task st
        = handleUpdateTaskStatus task.id TaskStatus.inProgress
            { st with currentFocusTask := some task } := by
      simp [handleStartFocus, htodo]
    rw [hred]
    refine ⟨?_, fun _ => rfl, fun hn => absurd htodo hn, hbtn⟩
    show (if TaskStatus.inProgress = TaskStatus.complete ∧
        focusedIdIs { st with currentFocusTask := some task } task.id = true
        then none else some task) = some task
    rw [if_neg (by simp)]
  · have hred : handleStartFocus task st = { st with currentFocusTask := some task } := by
      simp [handleStartFocus, htodo]
    rw [hred]
    exact ⟨rfl, fun ht => absurd ht htodo, fun _ => rfl, hbtn⟩

/-- C6 witness: the amended theorem applied to a concrete todo task. -/
theorem start_focus_behavior_witness :
    (handleStartFocus todoTask
        { tasks := [todoTask], currentFocusTask := none }).currentFocusTask
        = some todoTask ∧
    (todoTask.status = TaskStatus.todo →
      (handleStartFocus todoTask { tasks := [todoTask], currentFocusTask := none }).tasks
        = [todoTask].map fun t =>
            if t.id = todoTask.id then { t with status := TaskStatus.inProgress } else t) ∧
    (todoTask.status ≠ TaskStatus.todo →
      (handleStartFocus todoTask { tasks := [todoTask], currentFocusTask := none }).tasks
        = [todoTask]) ∧
    (focusButtonShown todoTask = false ↔ todoTask.status = TaskStatus.complete) :=
  start_focus_behavior todoTask { tasks := [todoTask], currentFocusTask := none }

/-- C7: in every reachable App state at most one task on the board is focused
(any two board tasks the focus reference points at are the same task); a task
is focused only while its status on the board is not complete; and both
marking the focused task complete and deleting the focused task clear the
focus reference. -/
theorem focus_invariant (st : AppState) (h : AppReach st) :
    (∀ t1 ∈ st.tasks, ∀ t2 ∈ st.tasks,
      focusedIdIs st t1.id = true → focusedIdIs st t2.id = true → t1 = t2) ∧
    (∀ f, st.currentFocusTask = some f →
      ∀ t ∈ st.tasks, t.id = f.id → t.status ≠ TaskStatus.complete) ∧
    ∀ f, st.currentFocusTask = some f →
      (handleUpdateTaskStatus f.id TaskStatus.complete st).currentFocusTask = none ∧
      (handleDeleteTask f.id st).currentFocusTask = none := by
  obtain ⟨hnd, hfoc⟩ := appInv_of_reach h
  refine ⟨?_, hfoc, ?_⟩
  · intro t1 h1 t2 h2 hf1 hf2
    cases hcf : st.currentFocusTask with
    | none => simp [focusedIdIs, hcf] at hf1
    | some f =>
        have e1 : f.id = t1.id := by
          simpa [focusedIdIs, hcf] using hf1
        have e2 : f.id = t2.id := by
          simpa [focusedIdIs, hcf] using hf2
        exact List.inj_on_of_nodup_map hnd h1 h2 (e1 ▸ e2)
  · intro f hf
    constructor
    · show (if TaskStatus.complete = TaskStatus.complete ∧ focusedIdIs st f.id = true
          then none else st.currentFocusTask) = none
      rw [if_pos ⟨rfl, by simp [focusedIdIs, hf]⟩]
    · show (if focusedIdIs st f.id = true then none else st.currentFocusTask) = none
      rw [if_pos (by simp [focusedIdIs, hf])]

/-- The board state after submitting the form for a "Write report" task and
starting focus on it. -/
def wApp : AppState :=
  handleStartFocus
    (mkTask 7 3 { title := "Write report", focusTime := 45,
                  energyLevel := EnergyLevel.medium, taskType := TaskType.project })
    (formSubmitStep "Write report" 45 EnergyLevel.medium TaskType.project 7 3
      { tasks := [], currentFocusTask := none }).1

lemma appReach_wApp : AppReach wApp :=
  AppReach.focus
    (mkTask 7 3 { title := "Write report", focusTime := 45,
                  energyLevel := EnergyLevel.medium, taskType := TaskType.project })
    (AppReach.add "Write report" 45 EnergyLevel.medium TaskType.project 7 3
      AppReach.init (by simp))
    (by decide) (by decide)

/-- C7 witness: the theorem applied to the concrete reachable focused state. -/
theorem focus_invariant_witness :
    (∀ t1 ∈ wApp.tasks, ∀ t2 ∈ wApp.tasks,
      focusedIdIs wApp t1.id = true → focusedIdIs wApp t2.id = true → t1 = t2) ∧
    (∀ f, wApp.currentFocusTask = some f →
      ∀ t ∈ wApp.tasks, t.id = f.id → t.status ≠ TaskStatus.complete) ∧
    ∀ f, wApp.currentFocusTask = some f →
      (handleUpdateTaskStatus f.id TaskStatus.complete wApp).currentFocusTask = none ∧
      (handleDeleteTask f.id wApp).currentFocusTask = none :=
  focus_invariant wApp appReach_wApp

/-- C8: a form submission whose title trims to empty makes no store call and
leaves the board unchanged — handleSubmit rejects it before onAddTask runs. -/
theorem empty_title_rejected (title : String) (focusTime : Nat)
    (energyLevel : EnergyLevel) (taskType : TaskType) (freshId now : Nat)
    (st : AppState) (h : jsTrim title = "") :
    formSubmitStep title focusTime energyLevel taskType freshId now st = (st, false) := by
  simp [formSubmitStep, handleSubmit, h]

/-- C8 witness: the theorem applied to a whitespace-only title. -/
theorem empty_title_rejected_witness :
    formSubmitStep "   " 30 EnergyLevel.medium TaskType.project 0 0
        { tasks := [], currentFocusTask := none }
      = ({ tasks := [], currentFocusTask := none }, false) :=
  empty_title_rejected "   " 30 EnergyLevel.medium TaskType.project 0 0
    { tasks := [], currentFocusTask := none } (by decide)

end TaskFlow
